import Mathlib

/-!
Verification development for the GridSeisMonitor repository (capture.py,
plotter.py).  The Python source is shallowly embedded: JSON objects become
association lists over a small value type, floating point numerics become
rationals, wall-clock timestamps become rationals (seconds), library calls
whose code is outside the repository (`json.loads`, `datetime.fromisoformat`,
`np.corrcoef`) are parameters of the embedded functions, and exceptions are
explicit (`Except`, or an outcome type recording that an exception escaped a
loop).
-/

namespace GridSeis

/-- A decoded JSON scalar value.  Nested arrays/objects do not occur in the
fields the programs touch; the pass-through arguments below are generic in the
constructors, so the flat value type loses nothing for the stated claims. -/
inductive JVal where
  | num (q : ℚ)
  | str (s : String)
  | boolean (b : Bool)
  | null
  deriving DecidableEq

/-- A decoded JSON object: Python `dict` in insertion order (duplicate keys
cannot survive `json.loads`, which keeps the last occurrence). -/
abbrev JObj := List (String × JVal)

/-- Python `d[k]` / `k in d`: first binding of `k`. -/
def pyGet : JObj → String → Option JVal
  | [], _ => none
  | (k', v) :: t, k => if k' = k then some v else pyGet t k

/-- Python `d[k] = v`: replace the binding in place if the key exists
(insertion order is kept), otherwise append a new binding at the end. -/
def pySet : JObj → String → JVal → JObj
  | [], k, v => [(k, v)]
  | (k', v') :: t, k, v => if k' = k then (k, v) :: t else (k', v') :: pySet t k v

/-! ### `bytes.decode('utf-8', errors='ignore')` (capture.py line 41)

CPython decodes UTF-8 and, under `errors='ignore'`, silently drops each
maximal ill-formed subsequence (no replacement marker is inserted).  Bytes are
`Nat` (< 256 in any real input).  The recursion is fuelled by the input length
so that the definition is structural and evaluates inside the kernel. -/

/-- A UTF-8 continuation byte. -/
def isCont (b : Nat) : Bool := 0x80 ≤ b && b ≤ 0xBF

/-- Constraint on the second byte of a three-byte sequence (excludes overlong
forms for lead `0xE0` and surrogates for lead `0xED`). -/
def cont2ok (b b1 : Nat) : Bool :=
  if b = 0xE0 then 0xA0 ≤ b1 && b1 ≤ 0xBF
  else if b = 0xED then 0x80 ≤ b1 && b1 ≤ 0x9F
  else isCont b1

/-- Constraint on the second byte of a four-byte sequence (excludes overlong
forms for lead `0xF0` and code points above `0x10FFFF` for lead `0xF4`). -/
def cont4ok (b b1 : Nat) : Bool :=
  if b = 0xF0 then 0x90 ≤ b1 && b1 ≤ 0xBF
  else if b = 0xF4 then 0x80 ≤ b1 && b1 ≤ 0x8F
  else isCont b1

/-- UTF-8 decoding with `errors='ignore'`: ill-formed subsequences are
dropped and decoding resumes at the next byte after the maximal ill-formed
subsequence, exactly as CPython does.  `fuel` only bounds the recursion; any
`fuel ≥` input length gives the decoder's value. -/
def decodeUtf8IgnoreAux : Nat → List Nat → List Char
  | 0, _ => []
  | _, [] => []
  | fuel + 1, b :: bs =>
    if b ≤ 0x7F then Char.ofNat b :: decodeUtf8IgnoreAux fuel bs
    else if 0xC2 ≤ b && b ≤ 0xDF then
      match bs with
      | [] => []
      | b1 :: rest =>
        if isCont b1 then
          Char.ofNat ((b - 0xC0) * 0x40 + (b1 - 0x80)) :: decodeUtf8IgnoreAux fuel rest
        else decodeUtf8IgnoreAux fuel (b1 :: rest)
    else if 0xE0 ≤ b && b ≤ 0xEF then
      match bs with
      | [] => []
      | [b1] => if cont2ok b b1 then [] else decodeUtf8IgnoreAux fuel [b1]
      | b1 :: b2 :: rest =>
        if cont2ok b b1 then
          if isCont b2 then
            Char.ofNat ((b - 0xE0) * 0x1000 + (b1 - 0x80) * 0x40 + (b2 - 0x80)) ::
              decodeUtf8IgnoreAux fuel rest
          else decodeUtf8IgnoreAux fuel (b2 :: rest)
        else decodeUtf8IgnoreAux fuel (b1 :: b2 :: rest)
    else if 0xF0 ≤ b && b ≤ 0xF4 then
      match bs with
      | [] => []
      | [b1] => if cont4ok b b1 then [] else decodeUtf8IgnoreAux fuel [b1]
      | [b1, b2] =>
        if cont4ok b b1 then
          if isCont b2 then [] else decodeUtf8IgnoreAux fuel [b2]
        else decodeUtf8IgnoreAux fuel [b1, b2]
      | b1 :: b2 :: b3 :: rest =>
        if cont4ok b b1 then
          if isCont b2 then
            if isCont b3 then
              Char.ofNat ((b - 0xF0) * 0x40000 + (b1 - 0x80) * 0x1000 +
                (b2 - 0x80) * 0x40 + (b3 - 0x80)) :: decodeUtf8IgnoreAux fuel rest
            else decodeUtf8IgnoreAux fuel (b3 :: rest)
          else decodeUtf8IgnoreAux fuel (b2 :: b3 :: rest)
        else decodeUtf8IgnoreAux fuel (b1 :: b2 :: b3 :: rest)
    else decodeUtf8IgnoreAux fuel bs

/-- `raw.decode('utf-8', errors='ignore')` on a byte string. -/
def decodeUtf8Ignore (bs : List Nat) : List Char := decodeUtf8IgnoreAux bs.length bs

/-- ASCII whitespace stripped by Python `str.strip()` (Python also strips the
rarer Unicode space characters; none of them occurs in the claims). -/
def isPySpace (c : Char) : Bool :=
  c = ' ' || c = '\t' || c = '\n' || c = '\r' || c = '\x0b' || c = '\x0c'

/-- Python `str.strip()`. -/
def pyStrip (s : List Char) : List Char :=
  ((s.dropWhile isPySpace).reverse.dropWhile isPySpace).reverse

/-- Python `line.startswith('\x7b')`. -/
def startsWithBrace : List Char → Bool
  | '\x7b' :: _ => true
  | _ => false

/-- Python `line.endswith('\x7d')`. -/
def endsWithBrace (s : List Char) : Bool :=
  match s.reverse with
  | '\x7d' :: _ => true
  | _ => false

/-! ### The capture worker's read loop (capture.py, `capture`, lines 38-56)

Per line the worker decodes permissively, pre-filters on braces, structurally
decodes (`json.loads`, a library call, is the parameter `loads`; `none` is a
`JSONDecodeError`, caught by `except json.JSONDecodeError: pass`), stamps
`board` and `wall_time`, appends the record to the store and flushes, and then
prints one informational line `data['freq']`/`data['signal']`.  A `KeyError`
or format error raised by that print is caught by neither handler inside the
`while` loop, so it escapes the loop and ends the worker (the outer
`except Exception` only prints the error).  The JSONL store is modelled at the
record level (a list of objects); `json.dumps` plus newline framing is the
library's faithful line encoding of one record. -/

/-- What one iteration of the `while True` read loop does with one raw line. -/
inductive LineOutcome where
  | notRecord
  | decodeSkip
  | logged (r : JObj)
  | loggedFatal (r : JObj)
  deriving DecidableEq

/-- Whether Python `f"\x7bv:.4f\x7d"` succeeds on the looked-up value: `v` must
exist and be numeric (`bool` is an `int` subclass, so it formats as a float;
strings and `None` raise). -/
def printableVal : Option JVal → Bool
  | some (JVal.num _) => true
  | some (JVal.boolean _) => true
  | _ => false

/-- `data['board'] = name; data['wall_time'] = datetime.now().isoformat()`
(capture.py lines 44-45). -/
def stampRecord (d : JObj) (name nowIso : String) : JObj :=
  pySet (pySet d "board" (JVal.str name)) "wall_time" (JVal.str nowIso)

/-- One iteration of the read loop on one raw serial line (capture.py lines
41-48).  `nowIso` is the wall-clock reading `datetime.now().isoformat()` of
this iteration. -/
def processLine (loads : List Char → Option JObj) (name nowIso : String)
    (raw : List Nat) : LineOutcome :=
  let s := pyStrip (decodeUtf8Ignore raw)
  if startsWithBrace s && endsWithBrace s then
    match loads s with
    | none => LineOutcome.decodeSkip
    | some d =>
      let r := stampRecord d name nowIso
      if printableVal (pyGet r "freq") && printableVal (pyGet r "signal") then
        LineOutcome.logged r
      else LineOutcome.loggedFatal r
  else LineOutcome.notRecord

/-- The worker's observable state: the board's store contents and whether the
read loop is still running (`alive = false` once an exception escaped it). -/
structure CapState where
  store : List JObj
  alive : Bool
  deriving DecidableEq

/-- The `while True` read loop over a stream of raw lines.  `open(file, 'a')`
(line 38) is modelled by whatever prior contents `st.store` starts with; every
accepted record is appended and flushed before the print runs, so a fatal
print still leaves its record in the store.  `clock i` is the wall-clock
string of iteration `i`. -/
def captureLoop (loads : List Char → Option JObj) (name : String)
    (clock : Nat → String) : Nat → CapState → List (List Nat) → CapState
  | _, st, [] => st
  | i, st, raw :: rest =>
    match processLine loads name (clock i) raw with
    | LineOutcome.logged r =>
      captureLoop loads name clock (i + 1) ⟨st.store ++ [r], st.alive⟩ rest
    | LineOutcome.loggedFatal r => ⟨st.store ++ [r], false⟩
    | _ => captureLoop loads name clock (i + 1) st rest

/-- The records the loop appends, in write order, stopping after a fatal
iteration (whose record is still written). -/
def writtenRecords (loads : List Char → Option JObj) (name : String)
    (clock : Nat → String) : Nat → List (List Nat) → List JObj
  | _, [] => []
  | i, raw :: rest =>
    match processLine loads name (clock i) raw with
    | LineOutcome.logged r => r :: writtenRecords loads name clock (i + 1) rest
    | LineOutcome.loggedFatal r => [r]
    | _ => writtenRecords loads name clock (i + 1) rest

/-! ### The series loader (plotter.py, `load_esp32_log`, lines 18-37)

Timestamps are rational seconds; `datetime.fromisoformat` is the parameter
`fromiso` (`none` models the `ValueError` it raises on a malformed string —
uncaught, so the whole call fails).  `json.loads` is again the parameter
`loads`; the loader only ever reads the capture side's own output, one JSON
object per line, so `loads` returning objects loses nothing. -/

/-- The loader's polarity inversion (plotter.py line 32):
`freq = 100.0 - freq`. -/
def invert (f : ℚ) : ℚ := 100 - f

/-- The value appended to `freqs`: passed through unchanged when
`invert_freq` is false; under inversion `100.0 - v` needs a numeric `v`
(Python `bool` counts as `0`/`1`; a string or `None` raises `TypeError`,
modelled as `none`). -/
def invertVal : Bool → JVal → Option JVal
  | false, v => some v
  | true, JVal.num q => some (JVal.num (invert q))
  | true, JVal.boolean b => some (JVal.num (invert (if b then 1 else 0)))
  | true, _ => none

/-- `d.get('board', Path(log_file).stem)` (plotter.py line 34). -/
def boardOf (d : JObj) (stem : String) : JVal :=
  (pyGet d "board").getD (JVal.str stem)

/-- The loader's accumulating state: `times, freqs, board = [], [], None`. -/
structure LoadState where
  times : List ℚ
  freqs : List JVal
  board : Option JVal
  deriving DecidableEq

/-- `freq_key = 'smoothed' if use_smoothed else 'freq'` (plotter.py line 22). -/
def freqKeyOf (useSmoothed : Bool) : String :=
  if useSmoothed then "smoothed" else "freq"

/-- One iteration of the loader's per-line loop (plotter.py lines 24-36).
In the source `times.append` runs before the frequency value is read, but an
exception while reading it loses the whole call, so the state is committed
atomically here.  `offsetSec` is `timedelta(hours=time_offset_hours)` in
seconds.  `.error ()` is an exception not caught by
`except json.JSONDecodeError`. -/
def loadStep (loads : List Char → Option JObj) (fromiso : String → Option ℚ)
    (offsetSec : ℚ) (invertFreq : Bool) (fKey stem : String)
    (st : LoadState) (line : List Char) : Except Unit LoadState :=
  match loads (pyStrip line) with
  | none => Except.ok st
  | some d =>
    if (pyGet d "wall_time").isSome && (pyGet d fKey).isSome then
      match pyGet d "wall_time" with
      | some (JVal.str ws) =>
        match fromiso ws with
        | some t =>
          match pyGet d fKey with
          | some fv =>
            match invertVal invertFreq fv with
            | some v =>
              Except.ok ⟨st.times ++ [t + offsetSec], st.freqs ++ [v],
                some (boardOf d stem)⟩
            | none => Except.error ()
          | none => Except.ok st
        | none => Except.error ()
      | _ => Except.error ()
    else Except.ok st

/-- The loader's `for line in f` loop. -/
def loadLines (loads : List Char → Option JObj) (fromiso : String → Option ℚ)
    (offsetSec : ℚ) (invertFreq : Bool) (fKey stem : String) :
    LoadState → List (List Char) → Except Unit LoadState
  | st, [] => Except.ok st
  | st, l :: ls =>
    match loadStep loads fromiso offsetSec invertFreq fKey stem st l with
    | Except.error e => Except.error e
    | Except.ok st' => loadLines loads fromiso offsetSec invertFreq fKey stem st' ls

/-- `load_esp32_log` (plotter.py lines 18-37): returns
`(times, freqs, board)`. -/
def load_esp32_log (loads : List Char → Option JObj)
    (fromiso : String → Option ℚ) (lines : List (List Char))
    (timeOffsetHours : ℚ) (invertFreq useSmoothed : Bool) (stem : String) :
    Except Unit (List ℚ × List JVal × Option JVal) :=
  (loadLines loads fromiso (timeOffsetHours * 3600) invertFreq
      (freqKeyOf useSmoothed) stem ⟨[], [], none⟩ lines).map
    fun st => (st.times, st.freqs, st.board)

/-- The unshifted timestamp a line contributes when the loader accepts it
(both `wall_time` and the requested value field present, `wall_time` a string
`fromiso` parses); `none` when the line is skipped or raises. -/
def acceptedStamp (loads : List Char → Option JObj)
    (fromiso : String → Option ℚ) (fKey : String) (line : List Char) :
    Option ℚ :=
  match loads (pyStrip line) with
  | some d =>
    if (pyGet d "wall_time").isSome && (pyGet d fKey).isSome then
      match pyGet d "wall_time" with
      | some (JVal.str ws) => fromiso ws
      | _ => none
    else none
  | none => none

/-- The accepted timestamps of a line list, in input order. -/
def acceptedStamps (loads : List Char → Option JObj)
    (fromiso : String → Option ℚ) (fKey : String)
    (lines : List (List Char)) : List ℚ :=
  lines.filterMap (acceptedStamp loads fromiso fKey)

/-! ### The alignment engine (plotter.py, `find_optimal_offset`, lines 39-89)

Times and frequencies are rationals.  `np.corrcoef(a, b)[0, 1]` is a numpy
library call and is the parameter `corrFn`; `corrFn _ _ = none` models the
`nan` it returns on a zero-variance input (`nan > best_corr` is false in
Python, so a `nan` never updates the best candidate).  Everything else — the
candidate range, the overlap window, the 15-second resampling grid,
`np.interp`'s linear interpolation, and the strict-improvement update — is
embedded directly. -/

/-- Python `min(xs)` over a nonempty list (it raises on `[]`; the engine is
only ever run on nonempty series, and the `0` default is unreachable there). -/
def pyMin : List ℚ → ℚ
  | [] => 0
  | x :: xs => xs.foldl min x

/-- Python `max(xs)` over a nonempty list (same remark as `pyMin`). -/
def pyMax : List ℚ → ℚ
  | [] => 0
  | x :: xs => xs.foldl max x

/-- The common resampling grid (plotter.py lines 61-65): `t = overlap_start;
while t <= overlap_end: append t; t += 15s`.  For `os ≤ oe` the loop produces
exactly the points `os + 15k` for `0 ≤ k ≤ ⌊(oe - os)/15⌋`, written here in
closed form. -/
def commonTimes (os oe : ℚ) : List ℚ :=
  (List.range ((⌊(oe - os) / 15⌋).toNat + 1)).map fun k : ℕ => os + 15 * (k : ℚ)

/-- Inner segments of `np.interp`: walking the sample points `(x0,f0),
(x1,f1), …` left to right; past the last point the last value is held. -/
def interpSeg : ℚ → ℚ → List ℚ → List ℚ → ℚ → ℚ
  | _, f0, [], _, _ => f0
  | _, f0, _, [], _ => f0
  | x0, f0, x1 :: xp, f1 :: fp, x =>
    if x ≤ x1 then f0 + (f1 - f0) * (x - x0) / (x1 - x0)
    else interpSeg x1 f1 xp fp x

/-- `np.interp(x, xp, fp)` at one query point: clamps to the end values
outside the sample range, linear interpolation inside (numpy assumes `xp`
increasing; it raises on empty `xp`, unreachable for nonempty series). -/
def interpPt (xp fp : List ℚ) (x : ℚ) : ℚ :=
  match xp, fp with
  | x0 :: xpt, f0 :: fpt => if x ≤ x0 then f0 else interpSeg x0 f0 xpt fpt x
  | _, _ => 0

/-- One candidate offset's evaluation (plotter.py lines 50-83): `none` when
the candidate is discarded (empty/inverted overlap window, or fewer than 10
grid points); otherwise `some` of the correlation value (`some none` being
numpy's `nan`). -/
def candScore (corrFn : List ℚ → List ℚ → Option ℚ)
    (refTimes refFreqs espTimes espFreqs : List ℚ) (offMin : ℤ) :
    Option (Option ℚ) :=
  let off : ℚ := (offMin : ℚ) * 60
  let shifted := espTimes.map (· + off)
  let os := max (pyMin refTimes) (pyMin shifted)
  let oe := min (pyMax refTimes) (pyMax shifted)
  if oe ≤ os then none
  else
    let common := commonTimes os oe
    if common.length < 10 then none
    else some (corrFn (common.map (interpPt refTimes refFreqs))
      (common.map (interpPt shifted espFreqs)))

/-- The loop body's best-candidate update (plotter.py lines 84-86): the state
is `(best_offset, best_corr)`; only a defined score strictly above `best_corr`
replaces it. -/
def stepF (sc : ℤ → Option (Option ℚ)) (st : ℤ × ℚ) (o : ℤ) : ℤ × ℚ :=
  match sc o with
  | some (some c) => if st.2 < c then (o, c) else st
  | _ => st

/-- `range(-120, 121, 1)` (plotter.py line 49): the 241 candidate offsets in
minutes, in increasing order. -/
def searchOffsets : List ℤ := (List.range 241).map fun i : ℕ => (i : ℤ) - 120

/-- The search's final `(best_offset, best_corr)` state, from the initial
`(0, -999)` (plotter.py lines 46-47). -/
def searchState (corrFn : List ℚ → List ℚ → Option ℚ)
    (refTimes refFreqs espTimes espFreqs : List ℚ) : ℤ × ℚ :=
  searchOffsets.foldl (stepF (candScore corrFn refTimes refFreqs espTimes espFreqs))
    (0, -999)

/-- `find_optimal_offset` (plotter.py lines 39-89): returns `best_offset`
only (the coefficient is printed, not returned). -/
def find_optimal_offset (corrFn : List ℚ → List ℚ → Option ℚ)
    (refTimes refFreqs espTimes espFreqs : List ℚ) : ℤ :=
  (searchState corrFn refTimes refFreqs espTimes espFreqs).1

/-! ### The command entry point's dispatch (capture.py, `main`, lines 76-92) -/

/-- The parsed command-line arguments relevant to dispatch. -/
structure Args where
  ports : List String
  listFlag : Bool
  name : Option String
  output : String
  deriving DecidableEq

/-- What `main` does after parsing: list the ports and exit, print the usage
help and perform no capture, or start one capture worker per
`(port, board name)` pair. -/
inductive MainAction where
  | listed (devices : List String)
  | helpNoCapture
  | startCapture (workers : List (String × String))
  deriving DecidableEq

/-- `args.name if (args.name and len(args.ports) == 1) else f"board\x7bi+1\x7d"`
(capture.py line 89); Python's truthiness makes an empty `--name` fall back
too. -/
def boardName (a : Args) (i : Nat) : String :=
  match a.name with
  | some n => if n != "" && a.ports.length == 1 then n else "board" ++ toString (i + 1)
  | none => "board" ++ toString (i + 1)

/-- The dispatch of `main` (capture.py lines 78-92) given the serial ports the
system would enumerate (as `(device, description)` pairs, used only by
`--list`). -/
def mainAction (avail : List (String × String)) (a : Args) : MainAction :=
  if a.listFlag then MainAction.listed (avail.map Prod.fst)
  else if a.ports.isEmpty then MainAction.helpNoCapture
  else MainAction.startCapture (a.ports.enum.map fun ip => (ip.2, boardName a ip.1))

/-! ### Structure of the best-candidate fold

The searched list, the strict-improvement update and the final state of the
fold in `find_optimal_offset`, proved for an arbitrary per-candidate score
function `sc` and then instantiated at `candScore`. -/

theorem stepF_snd_le (sc : ℤ → Option (Option ℚ)) (st : ℤ × ℚ) (o : ℤ) :
    st.2 ≤ (stepF sc st o).2 := by
  unfold stepF
  cases h : sc o with
  | none => exact le_refl _
  | some v =>
    cases v with
    | none => exact le_refl _
    | some c =>
      dsimp only
      split
      · exact le_of_lt (by assumption)
      · exact le_refl _

theorem stepF_of_lt (sc : ℤ → Option (Option ℚ)) (st : ℤ × ℚ) (o : ℤ) (c : ℚ)
    (h : sc o = some (some c)) (hlt : st.2 < c) : stepF sc st o = (o, c) := by
  unfold stepF
  rw [h]
  exact if_pos hlt

theorem stepF_cases (sc : ℤ → Option (Option ℚ)) (st : ℤ × ℚ) (o : ℤ) :
    stepF sc st o = st ∨
      ((stepF sc st o).1 = o ∧ sc o = some (some ((stepF sc st o).2)) ∧
        st.2 < (stepF sc st o).2) := by
  unfold stepF
  cases h : sc o with
  | none => exact Or.inl rfl
  | some v =>
    cases v with
    | none => exact Or.inl rfl
    | some c =>
      dsimp only
      split
      · exact Or.inr ⟨rfl, by simp [h], by assumption⟩
      · exact Or.inl rfl

theorem foldl_stepF_mono (sc : ℤ → Option (Option ℚ)) :
    ∀ (L : List ℤ) (st : ℤ × ℚ), st.2 ≤ (L.foldl (stepF sc) st).2
  | [], _ => le_refl _
  | o :: t, st =>
    le_trans (stepF_snd_le sc st o) (foldl_stepF_mono sc t (stepF sc st o))

theorem foldl_stepF_none (sc : ℤ → Option (Option ℚ)) :
    ∀ (L : List ℤ) (st : ℤ × ℚ), (∀ o ∈ L, sc o = none) →
      L.foldl (stepF sc) st = st := by
  intro L
  induction L with
  | nil => intro st _; rfl
  | cons a t ih =>
    intro st h
    have ha : stepF sc st a = st := by
      unfold stepF; rw [h a (List.mem_cons_self a t)]
    calc (a :: t).foldl (stepF sc) st = t.foldl (stepF sc) (stepF sc st a) := rfl
      _ = t.foldl (stepF sc) st := by rw [ha]
      _ = st := ih st fun o ho => h o (List.mem_cons_of_mem a ho)

theorem foldl_stepF_ub (sc : ℤ → Option (Option ℚ)) :
    ∀ (L : List ℤ) (st : ℤ × ℚ) (o : ℤ) (c : ℚ), o ∈ L →
      sc o = some (some c) → c ≤ (L.foldl (stepF sc) st).2 := by
  intro L
  induction L with
  | nil => intro st o c ho; exact absurd ho (List.not_mem_nil o)
  | cons a t ih =>
    intro st o c ho hsc
    rcases List.mem_cons.mp ho with rfl | hmem
    · have h1 : c ≤ (stepF sc st o).2 := by
        unfold stepF
        rw [hsc]
        dsimp only
        split
        · exact le_refl _
        · exact le_of_not_lt (by assumption)
      exact le_trans h1 (foldl_stepF_mono sc t _)
    · exact ih (stepF sc st a) o c hmem hsc

theorem foldl_stepF_at (sc : ℤ → Option (Option ℚ)) :
    ∀ (L : List ℤ) (st : ℤ × ℚ), L.foldl (stepF sc) st = st ∨
      ((L.foldl (stepF sc) st).1 ∈ L ∧
        sc (L.foldl (stepF sc) st).1 = some (some ((L.foldl (stepF sc) st).2)) ∧
        st.2 < (L.foldl (stepF sc) st).2) := by
  intro L
  induction L with
  | nil => intro st; exact Or.inl rfl
  | cons a t ih =>
    intro st
    have hfold : (a :: t).foldl (stepF sc) st = t.foldl (stepF sc) (stepF sc st a) := rfl
    rcases ih (stepF sc st a) with heq | ⟨hm, hs, hlt⟩
    · rcases stepF_cases sc st a with h1 | ⟨h1, h2, h3⟩
      · exact Or.inl (by rw [hfold, heq, h1])
      · refine Or.inr ?_
        rw [hfold, heq]
        refine ⟨by rw [h1]; exact List.mem_cons_self a t, ?_, h3⟩
        rw [h1]
        exact h2
    · refine Or.inr ?_
      rw [hfold]
      exact ⟨List.mem_cons_of_mem a hm, hs, lt_of_le_of_lt (stepF_snd_le sc st a) hlt⟩

theorem foldl_stepF_first (sc : ℤ → Option (Option ℚ)) :
    ∀ (L : List ℤ) (st : ℤ × ℚ), List.Pairwise (· < ·) L →
      ∀ o ∈ L, sc o = some (some ((L.foldl (stepF sc) st).2)) →
        st.2 < (L.foldl (stepF sc) st).2 → (L.foldl (stepF sc) st).1 ≤ o := by
  intro L
  induction L with
  | nil => intro st _ o ho; exact absurd ho (List.not_mem_nil o)
  | cons a t ih =>
    intro st hpw o ho hsc hlt
    simp only [List.foldl_cons] at hsc hlt ⊢
    rw [List.pairwise_cons] at hpw
    rcases List.mem_cons.mp ho with rfl | hmem
    · -- o = a: the step at a records (a, final best)
      have hs' : stepF sc st o = (o, (t.foldl (stepF sc) (stepF sc st o)).2) :=
        stepF_of_lt sc st o _ hsc hlt
      rcases foldl_stepF_at sc t (stepF sc st o) with heq | ⟨_, _, hlt2⟩
      · rw [heq, hs']
      · have h5 : (stepF sc st o).2 = (t.foldl (stepF sc) (stepF sc st o)).2 := by
          have h6 := congrArg Prod.snd hs'
          exact h6
        exact absurd hlt2 (by rw [h5]; exact lt_irrefl _)
    · by_cases h2 : (stepF sc st a).2 < (t.foldl (stepF sc) (stepF sc st a)).2
      · exact ih (stepF sc st a) hpw.2 o hmem hsc h2
      · have hle : (stepF sc st a).2 ≤ (t.foldl (stepF sc) (stepF sc st a)).2 :=
          foldl_stepF_mono sc t _
        rcases foldl_stepF_at sc t (stepF sc st a) with heq | ⟨_, _, hlt2⟩
        · rw [heq] at hsc hlt ⊢
          rcases stepF_cases sc st a with h1 | ⟨h1, _, _⟩
          · rw [h1] at hlt; exact absurd hlt (lt_irrefl _)
          · rw [h1]; exact le_of_lt (hpw.1 o hmem)
        · exact absurd hlt2 h2
theorem searchOffsets_length : searchOffsets.length = 241 := by
  rw [searchOffsets, List.length_map, List.length_range]
theorem searchOffsets_pairwise : List.Pairwise (· < ·) searchOffsets := by
  refine (List.pairwise_map).mpr ?_
  refine List.Pairwise.imp ?_ (List.pairwise_lt_range 241)
  intro i j h
  omega
theorem mem_searchOffsets (o : ℤ) : o ∈ searchOffsets ↔ -120 ≤ o ∧ o ≤ 120 := by
  rw [searchOffsets, List.mem_map]
  constructor
  · rintro ⟨i, hi, rfl⟩
    rw [List.mem_range] at hi
    omega
  · rintro ⟨h1, h2⟩
    refine ⟨(o + 120).toNat, List.mem_range.mpr ?_, ?_⟩
    · omega
    · omega
/-! ### Claims C1 and C2: the alignment engine's search -/

/-- A stand-in correlation function (the engine's search structure holds for
any score the numpy call returns). -/
def corrOne : List ℚ → List ℚ → Option ℚ := fun _ _ => some 1

/-- On a reference series spanning `[0, 600]` seconds and a captured series
spanning `[1000000, 1000600]` seconds, no candidate offset in the ±120-minute
range produces a valid overlap window: the shifted capture start lies at least
`992800 > 600` seconds, so every window is inverted and every candidate is
discarded. -/
theorem candScore_none_far (cfn : List ℚ → List ℚ → Option ℚ)
    (rF eF : List ℚ) (o : ℤ) (ho : o ∈ searchOffsets) :
    candScore cfn [0, 600] rF [1000000, 1000600] eF o = none := by
  obtain ⟨h1, h2⟩ := (mem_searchOffsets o).mp ho
  have hq1 : (-120 : ℚ) ≤ (o : ℚ) := by exact_mod_cast h1
  have hq2 : ((o : ℚ)) ≤ 120 := by exact_mod_cast h2
  simp only [candScore, pyMin, pyMax, List.map_cons, List.map_nil,
    List.foldl_cons, List.foldl_nil, List.length_map, List.length_range]
  have hcond : min (max (0 : ℚ) 600)
      (max (1000000 + (o : ℚ) * 60) (1000600 + (o : ℚ) * 60)) ≤
      max (min (0 : ℚ) 600) (min (1000000 + (o : ℚ) * 60) (1000600 + (o : ℚ) * 60)) := by
    have e1 : min (1000000 + (o : ℚ) * 60) (1000600 + (o : ℚ) * 60) =
        1000000 + (o : ℚ) * 60 := min_eq_left (by linarith)
    have e2 : min (max (0 : ℚ) 600)
        (max (1000000 + (o : ℚ) * 60) (1000600 + (o : ℚ) * 60)) ≤ max (0 : ℚ) 600 :=
      min_le_left _ _
    have e3 : max (0 : ℚ) 600 = 600 := max_eq_right (by norm_num)
    have e4 : 1000000 + (o : ℚ) * 60 ≤
        max (min (0 : ℚ) 600) (min (1000000 + (o : ℚ) * 60) (1000600 + (o : ℚ) * 60)) := by
      rw [e1]
      exact le_max_right _ _
    have : (600 : ℚ) ≤ 1000000 + (o : ℚ) * 60 := by nlinarith
    linarith
  rw [if_pos hcond]

/-- C2: `find_optimal_offset` evaluates exactly the 241 integer-minute
candidate offsets −120..+120 (first two conjuncts), every defined candidate
score is at most the final best coefficient (third), the final best offset is
a candidate whose score equals the final best coefficient (fourth), the first
candidate in increasing offset order reaching that score wins ties (fifth),
and the returned offset is the final best offset (sixth) — all under the
assumption that some candidate has a defined score above the `-999` sentinel,
which any defined Pearson coefficient (lying in `[-1, 1]`) satisfies. -/
theorem find_optimal_offset_exhaustive
    (cfn : List ℚ → List ℚ → Option ℚ) (rT rF eT eF : List ℚ)
    (o₀ : ℤ) (c₀ : ℚ) (ho : o₀ ∈ searchOffsets)
    (hs : candScore cfn rT rF eT eF o₀ = some (some c₀)) (hc : -999 < c₀) :
    searchOffsets.length = 241 ∧
    (∀ o : ℤ, o ∈ searchOffsets ↔ -120 ≤ o ∧ o ≤ 120) ∧
    (∀ o ∈ searchOffsets, ∀ c : ℚ, candScore cfn rT rF eT eF o = some (some c) →
      c ≤ (searchState cfn rT rF eT eF).2) ∧
    candScore cfn rT rF eT eF (searchState cfn rT rF eT eF).1 =
      some (some ((searchState cfn rT rF eT eF).2)) ∧
    (∀ o ∈ searchOffsets,
      candScore cfn rT rF eT eF o = some (some ((searchState cfn rT rF eT eF).2)) →
        (searchState cfn rT rF eT eF).1 ≤ o) ∧
    find_optimal_offset cfn rT rF eT eF = (searchState cfn rT rF eT eF).1 := by
  have hub : ∀ o ∈ searchOffsets, ∀ c : ℚ,
      candScore cfn rT rF eT eF o = some (some c) →
        c ≤ (searchState cfn rT rF eT eF).2 := by
    intro o ho' c hc'
    exact foldl_stepF_ub (candScore cfn rT rF eT eF) searchOffsets (0, -999) o c ho' hc'
  have hlt : (-999 : ℚ) < (searchState cfn rT rF eT eF).2 :=
    lt_of_lt_of_le hc (hub o₀ ho c₀ hs)
  rcases foldl_stepF_at (candScore cfn rT rF eT eF) searchOffsets (0, -999) with
    heq | ⟨_, hself, _⟩
  · exfalso
    have h9 : searchState cfn rT rF eT eF = (0, -999) := heq
    rw [h9] at hlt
    exact absurd hlt (lt_irrefl _)
  · refine ⟨searchOffsets_length, mem_searchOffsets, hub, hself, ?_, rfl⟩
    intro o ho' h'
    exact foldl_stepF_first (candScore cfn rT rF eT eF) searchOffsets (0, -999)
      searchOffsets_pairwise o ho' h' hlt

/-- A stand-in correlation function returning the constant score `1/2`. -/
def corrHalf : List ℚ → List ℚ → Option ℚ := fun _ _ => some (1/2)

/-- At offset `0` two series both spanning `[0, 600]` seconds overlap fully,
the 15-second grid has 41 ≥ 10 points, and the candidate's score is defined. -/
theorem candScore_at_zero :
    candScore corrHalf [0, 600] [50, 51] [0, 600] [50, 51] 0 = some (some (1/2)) := by
  simp only [candScore, pyMin, pyMax, commonTimes, corrHalf, List.map_cons,
    List.map_nil, List.foldl_cons, List.foldl_nil, List.length_map,
    List.length_range, Int.cast_zero, zero_mul, add_zero]
  norm_num [min_def, max_def]
  intro h
  exact absurd h (by decide)

/-- C1 (amended): when no candidate offset in the searched range produces a
valid overlap window, the search state never leaves its initialization, so
`find_optimal_offset` returns the offset `0` with the best coefficient still
at the `-999` sentinel — the "no valid alignment" condition is not surfaced
as a distinct outcome. -/
theorem find_optimal_offset_no_valid_window
    (cfn : List ℚ → List ℚ → Option ℚ) (rT rF eT eF : List ℚ)
    (h : ∀ o ∈ searchOffsets, candScore cfn rT rF eT eF o = none) :
    searchState cfn rT rF eT eF = (0, -999) ∧
    find_optimal_offset cfn rT rF eT eF = 0 := by
  have h1 : searchState cfn rT rF eT eF = (0, -999) :=
    foldl_stepF_none (candScore cfn rT rF eT eF) searchOffsets (0, -999) h
  exact ⟨h1, by unfold find_optimal_offset; rw [h1]⟩

/-- C1 (counterexample): for the concrete non-overlapping series of
`candScore_none_far` no candidate offset has a valid window, yet the engine
returns the plain offset `0` — indistinguishable from a discovered zero
offset, since the return type carries no distinct "no valid alignment"
outcome.  This refutes the claim that such an outcome is reported and that a
zero offset is never returned in this situation. -/
theorem find_optimal_offset_counterexample :
    (∀ o ∈ searchOffsets,
      candScore corrOne [0, 600] [50, 50] [1000000, 1000600] [50, 49] o = none) ∧
    find_optimal_offset corrOne [0, 600] [50, 50] [1000000, 1000600] [50, 49] = 0 := by
  have hnone : ∀ o ∈ searchOffsets,
      candScore corrOne [0, 600] [50, 50] [1000000, 1000600] [50, 49] o = none :=
    fun o ho => candScore_none_far corrOne [50, 50] [50, 49] o ho
  refine ⟨hnone, ?_⟩
  have h1 : searchState corrOne [0, 600] [50, 50] [1000000, 1000600] [50, 49] =
      (0, -999) :=
    foldl_stepF_none _ searchOffsets (0, -999) hnone
  unfold find_optimal_offset
  rw [h1]

/-- C1 (witness): the amended theorem applied to the concrete non-overlapping
input. -/
theorem find_optimal_offset_no_valid_window_witness :
    (∀ o ∈ searchOffsets,
      candScore corrOne [0, 600] [50, 50] [1000000, 1000600] [50, 49] o = none) ∧
    (searchState corrOne [0, 600] [50, 50] [1000000, 1000600] [50, 49] = (0, -999) ∧
      find_optimal_offset corrOne [0, 600] [50, 50] [1000000, 1000600] [50, 49] = 0) :=
  ⟨fun o ho => candScore_none_far corrOne [50, 50] [50, 49] o ho,
    find_optimal_offset_no_valid_window corrOne [0, 600] [50, 50]
      [1000000, 1000600] [50, 49]
      (fun o ho => candScore_none_far corrOne [50, 50] [50, 49] o ho)⟩

/-- C2 (witness): the search theorem applied to two fully overlapping concrete
series with the constant score `1/2` at every valid candidate. -/
theorem find_optimal_offset_exhaustive_witness :
    (0 : ℤ) ∈ searchOffsets ∧
    candScore corrHalf [0, 600] [50, 51] [0, 600] [50, 51] 0 = some (some (1/2)) ∧
    (-999 : ℚ) < 1/2 ∧
    (searchOffsets.length = 241 ∧
      (∀ o : ℤ, o ∈ searchOffsets ↔ -120 ≤ o ∧ o ≤ 120) ∧
      (∀ o ∈ searchOffsets, ∀ c : ℚ,
        candScore corrHalf [0, 600] [50, 51] [0, 600] [50, 51] o = some (some c) →
          c ≤ (searchState corrHalf [0, 600] [50, 51] [0, 600] [50, 51]).2) ∧
      candScore corrHalf [0, 600] [50, 51] [0, 600] [50, 51]
          (searchState corrHalf [0, 600] [50, 51] [0, 600] [50, 51]).1 =
        some (some ((searchState corrHalf [0, 600] [50, 51] [0, 600] [50, 51]).2)) ∧
      (∀ o ∈ searchOffsets,
        candScore corrHalf [0, 600] [50, 51] [0, 600] [50, 51] o =
            some (some ((searchState corrHalf [0, 600] [50, 51] [0, 600] [50, 51]).2)) →
          (searchState corrHalf [0, 600] [50, 51] [0, 600] [50, 51]).1 ≤ o) ∧
      find_optimal_offset corrHalf [0, 600] [50, 51] [0, 600] [50, 51] =
        (searchState corrHalf [0, 600] [50, 51] [0, 600] [50, 51]).1) :=
  ⟨by decide, candScore_at_zero, by norm_num,
    find_optimal_offset_exhaustive corrHalf [0, 600] [50, 51] [0, 600] [50, 51]
      0 (1/2) (by decide) candScore_at_zero (by norm_num)⟩

/-! ### Claims C3, C8 and C9: the capture worker and the log writer -/

/-- C8: the capture loop is append-only.  Starting from any prior store
contents (the file is opened in mode `'a'`: create if absent, append if
present, never truncate), the final store is exactly the prior records
followed by the newly written records in write order — `writtenRecords`
recomputes, per line, only what the current line contributes, so nothing
already stored is dropped, reordered or rewritten. -/
theorem captureLoop_append_only (loads : List Char → Option JObj) (name : String)
    (clock : Nat → String) (lines : List (List Nat)) :
    ∀ (i : Nat) (prior : List JObj),
      (captureLoop loads name clock i ⟨prior, true⟩ lines).store =
        prior ++ writtenRecords loads name clock i lines := by
  induction lines with
  | nil => intro i prior; simp [captureLoop, writtenRecords]
  | cons raw rest ih =>
    intro i prior
    cases h : processLine loads name (clock i) raw with
    | notRecord => simp only [captureLoop, writtenRecords, h]; exact ih (i + 1) prior
    | decodeSkip => simp only [captureLoop, writtenRecords, h]; exact ih (i + 1) prior
    | logged r =>
      simp only [captureLoop, writtenRecords, h]
      rw [ih (i + 1) (prior ++ [r])]
      simp
    | loggedFatal r =>
      simp only [captureLoop, writtenRecords, h]

/-- Looking up any key other than the one being set is unchanged by a Python
dict assignment. -/
theorem pyGet_pySet_ne (d : JObj) (k₀ k : String) (v : JVal) (h : k ≠ k₀) :
    pyGet (pySet d k₀ v) k = pyGet d k := by
  induction d with
  | nil => simp [pyGet, pySet, Ne.symm h]
  | cons kv t ih =>
    obtain ⟨k', v'⟩ := kv
    by_cases hk : k' = k₀
    · subst hk
      simp [pyGet, pySet, Ne.symm h]
    · simp only [pySet, if_neg hk, pyGet]
      by_cases hk2 : k' = k
      · simp [hk2]
      · simp [hk2, ih]

/-- Stamping `board` and `wall_time` touches no other field. -/
theorem pyGet_stampRecord (d : JObj) (name nowIso k : String)
    (hb : k ≠ "board") (hw : k ≠ "wall_time") :
    pyGet (stampRecord d name nowIso) k = pyGet d k := by
  unfold stampRecord
  rw [pyGet_pySet_ne _ _ _ _ hw, pyGet_pySet_ne _ _ _ _ hb]

/-- C9: for every accepted line, every field of the decoded record other than
the capture-stamped `board` and `wall_time` is passed through unchanged into
the record the worker appends (whether or not the informational print then
succeeds): looking it up in the persisted record gives exactly its original
value. -/
theorem processLine_preserves_fields
    (loads : List Char → Option JObj) (name nowIso : String) (raw : List Nat)
    (d r : JObj) (k : String)
    (hd : loads (pyStrip (decodeUtf8Ignore raw)) = some d)
    (hout : processLine loads name nowIso raw = LineOutcome.logged r ∨
      processLine loads name nowIso raw = LineOutcome.loggedFatal r)
    (hb : k ≠ "board") (hw : k ≠ "wall_time") :
    pyGet r k = pyGet d k := by
  simp only [processLine, hd] at hout
  by_cases hbr : (startsWithBrace (pyStrip (decodeUtf8Ignore raw)) &&
      endsWithBrace (pyStrip (decodeUtf8Ignore raw))) = true
  · rw [if_pos hbr] at hout
    have hr : r = stampRecord d name nowIso := by
      rcases hout with h1 | h1
      · split at h1
        · cases h1; rfl
        · cases h1
      · split at h1
        · cases h1
        · cases h1; rfl
    rw [hr]
    exact pyGet_stampRecord d name nowIso k hb hw
  · rw [if_neg hbr] at hout
    rcases hout with h1 | h1 <;> cases h1

/-- The ASCII bytes of a string, as a raw serial line. -/
def asciiBytes (s : String) : List Nat := s.data.map Char.toNat

/-- A serial line that decodes to a record with `signal` but no `freq`. -/
def rawMissingFreq : List Nat := asciiBytes "\x7b\"signal\": 1.0\x7d"

/-- A serial line that decodes to a record with both `freq` and `signal`. -/
def rawGood : List Nat := asciiBytes "\x7b\"freq\": 50, \"signal\": 1\x7d"

/-- A concrete structured decode covering the two lines above. -/
def loadsCap : List Char → Option JObj := fun s =>
  if s = "\x7b\"signal\": 1.0\x7d".data then some [("signal", JVal.num 1)]
  else if s = "\x7b\"freq\": 50, \"signal\": 1\x7d".data then
    some [("freq", JVal.num 50), ("signal", JVal.num 1)]
  else none

/-- A concrete wall clock for the capture loop. -/
def clockCap : Nat → String := fun i => "2025-12-10T15:0" ++ toString i

/-- C3: on the line `\x7b"signal": 1.0\x7d` — a well-formed record that merely
lacks `freq` — the worker appends and flushes the stamped record and then the
informational print raises `KeyError('freq')`, which neither inner handler
catches, so the read loop terminates (first two conjuncts: the record is in
the store, nothing was printed, the worker is dead and a following good line
is never processed).  The third conjunct shows the same good line is logged
and the worker stays alive when it comes first, isolating the missing field as
the cause of death.  This contradicts the claim that the record "is simply not
printed" while the loop continues. -/
theorem capture_missing_freq_kills_worker :
    processLine loadsCap "board1" "t0" rawMissingFreq =
      LineOutcome.loggedFatal [("signal", JVal.num 1), ("board", JVal.str "board1"),
        ("wall_time", JVal.str "t0")] ∧
    captureLoop loadsCap "board1" clockCap 0 ⟨[], true⟩ [rawMissingFreq, rawGood] =
      ⟨[[("signal", JVal.num 1), ("board", JVal.str "board1"),
        ("wall_time", JVal.str "2025-12-10T15:00")]], false⟩ ∧
    captureLoop loadsCap "board1" clockCap 0 ⟨[], true⟩ [rawGood] =
      ⟨[[("freq", JVal.num 50), ("signal", JVal.num 1), ("board", JVal.str "board1"),
        ("wall_time", JVal.str "2025-12-10T15:00")]], true⟩ :=
  ⟨by decide, by decide, by decide⟩

/-- A serial line carrying an extra sensor-supplied field `temp`. -/
def rawExtra : List Nat := asciiBytes "\x7b\"temp\": 7, \"freq\": 50, \"signal\": 1\x7d"

/-- A concrete structured decode for the line with the extra field. -/
def loadsExtra : List Char → Option JObj := fun s =>
  if s = "\x7b\"temp\": 7, \"freq\": 50, \"signal\": 1\x7d".data then
    some [("temp", JVal.num 7), ("freq", JVal.num 50), ("signal", JVal.num 1)]
  else none

/-- C9 (witness): the pass-through theorem applied to a concrete record with
an extra `temp` field. -/
theorem processLine_preserves_fields_witness :
    loadsExtra (pyStrip (decodeUtf8Ignore rawExtra)) =
      some [("temp", JVal.num 7), ("freq", JVal.num 50), ("signal", JVal.num 1)] ∧
    (processLine loadsExtra "board1" "t0" rawExtra =
      LineOutcome.logged [("temp", JVal.num 7), ("freq", JVal.num 50),
        ("signal", JVal.num 1), ("board", JVal.str "board1"),
        ("wall_time", JVal.str "t0")] ∨
     processLine loadsExtra "board1" "t0" rawExtra =
      LineOutcome.loggedFatal [("temp", JVal.num 7), ("freq", JVal.num 50),
        ("signal", JVal.num 1), ("board", JVal.str "board1"),
        ("wall_time", JVal.str "t0")]) ∧
    "temp" ≠ "board" ∧ "temp" ≠ "wall_time" ∧
    pyGet [("temp", JVal.num 7), ("freq", JVal.num 50), ("signal", JVal.num 1),
        ("board", JVal.str "board1"), ("wall_time", JVal.str "t0")] "temp" =
      pyGet [("temp", JVal.num 7), ("freq", JVal.num 50), ("signal", JVal.num 1)] "temp" :=
  ⟨by decide, Or.inl (by decide), by decide, by decide,
    processLine_preserves_fields loadsExtra "board1" "t0" rawExtra
      [("temp", JVal.num 7), ("freq", JVal.num 50), ("signal", JVal.num 1)]
      [("temp", JVal.num 7), ("freq", JVal.num 50), ("signal", JVal.num 1),
        ("board", JVal.str "board1"), ("wall_time", JVal.str "t0")]
      "temp" (by decide) (Or.inl (by decide)) (by decide) (by decide)⟩

/-! ### Claims C5, C6 and C10: the series loader -/

/-- C5: the loader's polarity inversion is an involution: for every frequency
`f`, `invert (invert f) = f` with `invert f = 100 - f`. -/
theorem invert_involution (f : ℚ) : invert (invert f) = f := by
  unfold invert
  ring

/-- C5 (check at a concrete frequency): the involution applied at `100.5`. -/
theorem invert_involution_witness : invert (invert (201/2)) = 201/2 :=
  invert_involution (201/2)

-- Equality of loader results is decidable (to evaluate the loader at
-- concrete inputs).
deriving instance DecidableEq for Except

/-- What one loader iteration contributes to `times`: the accepted stamp of
the line shifted by the offset, or nothing. -/
theorem loadStep_ok_times (loads : List Char → Option JObj)
    (fromiso : String → Option ℚ) (off : ℚ) (inv : Bool) (fKey stem : String)
    (st st1 : LoadState) (l : List Char)
    (h : loadStep loads fromiso off inv fKey stem st l = Except.ok st1) :
    st1.times = st.times ++ ((acceptedStamp loads fromiso fKey l).map (· + off)).toList := by
  unfold loadStep at h
  split at h
  · cases h
    rename_i hl
    simp [acceptedStamp, hl]
  · rename_i d hl
    split at h
    · rename_i hg
      split at h
      · rename_i ws hwt
        split at h
        · rename_i t hfi
          split at h
          · rename_i fv hfk
            split at h
            · rename_i v hiv
              cases h
              simp [acceptedStamp, hl, hg, hwt, hfi, hfk]
            · cases h
          · cases h
            rename_i hfk
            rw [Bool.and_eq_true] at hg
            rw [hfk] at hg
            simp at hg
        · cases h
      · cases h
    · rename_i hg
      cases h
      simp [acceptedStamp, hl, hg]
/-- The loader's `times` output is exactly the accepted stamps of the input
lines, in input order, each shifted by the constant offset — no check, sort or
reordering happens. -/
theorem loadLines_ok_times (loads : List Char → Option JObj)
    (fromiso : String → Option ℚ) (off : ℚ) (inv : Bool) (fKey stem : String) :
    ∀ (lines : List (List Char)) (st st1 : LoadState),
      loadLines loads fromiso off inv fKey stem st lines = Except.ok st1 →
      st1.times = st.times ++ (acceptedStamps loads fromiso fKey lines).map (· + off) := by
  intro lines
  induction lines with
  | nil =>
    intro st st1 h
    cases h
    simp [acceptedStamps]
  | cons l ls ih =>
    intro st st1 h
    simp only [loadLines] at h
    cases hstep : loadStep loads fromiso off inv fKey stem st l with
    | error e => rw [hstep] at h; cases h
    | ok stm =>
      rw [hstep] at h
      have h1 := loadStep_ok_times loads fromiso off inv fKey stem st stm l hstep
      have h2 := ih stm st1 h
      rw [h2, h1]
      simp only [acceptedStamps, List.filterMap_cons]
      cases acceptedStamp loads fromiso fKey l <;> simp

/-- C6 (amended): `load_esp32_log` performs no ordering check: its `times`
output is exactly the accepted records' timestamps in input order (write order
minus skips), shifted by the constant offset, and is therefore non-decreasing
precisely when the accepted input stamps are — it is NOT guaranteed
non-decreasing for arbitrary (e.g. hand-edited or concatenated) input. -/
theorem load_esp32_log_order (loads : List Char → Option JObj)
    (fromiso : String → Option ℚ) (lines : List (List Char)) (hours : ℚ)
    (inv useSmoothed : Bool) (stem : String) (ts : List ℚ) (fs : List JVal)
    (b : Option JVal)
    (h : load_esp32_log loads fromiso lines hours inv useSmoothed stem =
      Except.ok (ts, fs, b)) :
    ts = (acceptedStamps loads fromiso (freqKeyOf useSmoothed) lines).map
      (· + hours * 3600) ∧
    (List.Chain' (· ≤ ·)
        (acceptedStamps loads fromiso (freqKeyOf useSmoothed) lines) →
      List.Chain' (· ≤ ·) ts) := by
  unfold load_esp32_log at h
  cases hres : loadLines loads fromiso (hours * 3600) inv (freqKeyOf useSmoothed)
      stem ⟨[], [], none⟩ lines with
  | error e => rw [hres] at h; cases h
  | ok st1 =>
    rw [hres] at h
    simp only [Except.map] at h
    cases h
    have h1 := loadLines_ok_times loads fromiso (hours * 3600) inv
      (freqKeyOf useSmoothed) stem lines ⟨[], [], none⟩ st1 hres
    simp only [List.nil_append] at h1
    refine ⟨h1, ?_⟩
    intro hch
    rw [h1, List.chain'_map]
    exact hch.imp fun a b hab => add_le_add_right hab (hours * 3600)
/-- A structured decode with two well-formed records whose `wall_time`
strings parse out of order (`"a"` stamps 200 s, `"b"` stamps 100 s). -/
def loadsOrd : List Char → Option JObj := fun s =>
  if s = "a".data then some [("wall_time", JVal.str "T2"), ("freq", JVal.num 50)]
  else if s = "b".data then some [("wall_time", JVal.str "T1"), ("freq", JVal.num 50)]
  else none

/-- A concrete `datetime.fromisoformat`. -/
def fromisoOrd : String → Option ℚ := fun s =>
  if s = "T2" then some 200 else if s = "T1" then some 100 else none

/-- C6 (counterexample): on two well-formed lines whose timestamps decrease,
the loader accepts both and returns `times = [200, 100]` — an out-of-order
series, with no entry dropped and no construction failure, refuting the claim
that no input can produce a timestamp smaller than one preceding it. -/
theorem load_esp32_log_order_counterexample :
    load_esp32_log loadsOrd fromisoOrd ["a".data, "b".data] 0 true false "glog" =
      Except.ok ([200, 100], [JVal.num 50, JVal.num 50], some (JVal.str "glog")) ∧
    ¬ List.Chain' (· ≤ ·) ([200, 100] : List ℚ) :=
  ⟨by with_unfolding_all decide, by simp [List.chain'_cons]; norm_num⟩

/-- C6 (witness): the amended theorem applied to the same two lines in
chronological order. -/
theorem load_esp32_log_order_witness :
    load_esp32_log loadsOrd fromisoOrd ["b".data, "a".data] 0 true false "glog" =
      Except.ok ([100, 200], [JVal.num 50, JVal.num 50], some (JVal.str "glog")) ∧
    (([100, 200] : List ℚ) =
      (acceptedStamps loadsOrd fromisoOrd (freqKeyOf false) ["b".data, "a".data]).map
        (· + 0 * 3600) ∧
      (List.Chain' (· ≤ ·)
          (acceptedStamps loadsOrd fromisoOrd (freqKeyOf false) ["b".data, "a".data]) →
        List.Chain' (· ≤ ·) ([100, 200] : List ℚ))) :=
  ⟨by with_unfolding_all decide,
    load_esp32_log_order loadsOrd fromisoOrd ["b".data, "a".data] 0 true false "glog"
      [100, 200] [JVal.num 50, JVal.num 50] (some (JVal.str "glog"))
      (by with_unfolding_all decide)⟩
/-- A line whose record lacks `wall_time` leaves the loader state untouched. -/
theorem loadStep_skips_missing_wall_time (loads : List Char → Option JObj)
    (fromiso : String → Option ℚ) (off : ℚ) (inv : Bool) (fKey stem : String)
    (st : LoadState) (line : List Char) (d : JObj)
    (hd : loads (pyStrip line) = some d)
    (hwt : pyGet d "wall_time" = none) :
    loadStep loads fromiso off inv fKey stem st line = Except.ok st := by
  simp [loadStep, hd, hwt]

/-- Removing a line the loader skips does not change the loader's run. -/
theorem loadLines_skip (loads : List Char → Option JObj)
    (fromiso : String → Option ℚ) (off : ℚ) (inv : Bool) (fKey stem : String)
    (line : List Char) (post : List (List Char))
    (hskip : ∀ st : LoadState, loadStep loads fromiso off inv fKey stem st line = Except.ok st) :
    ∀ (pre : List (List Char)) (st : LoadState),
      loadLines loads fromiso off inv fKey stem st (pre ++ line :: post) =
        loadLines loads fromiso off inv fKey stem st (pre ++ post) := by
  intro pre
  induction pre with
  | nil =>
    intro st
    simp only [List.nil_append, loadLines, hskip st]
  | cons p pre' ih =>
    intro st
    simp only [List.cons_append, loadLines]
    cases loadStep loads fromiso off inv fKey stem st p with
    | error e => rfl
    | ok st1 => exact ih st1

/-- C10: a line that decodes to a record with the requested value field but
no `wall_time` is skipped outright: the loader's output on any line list
containing it equals its output with the line removed — no gap marker and no
substitute entry is emitted, so the output retains exactly the records with
both fields. -/
theorem load_esp32_log_skips_missing_wall_time (loads : List Char → Option JObj)
    (fromiso : String → Option ℚ) (hours : ℚ) (inv useSmoothed : Bool)
    (stem : String) (pre post : List (List Char)) (line : List Char) (d : JObj)
    (hd : loads (pyStrip line) = some d)
    (hwt : pyGet d "wall_time" = none)
    (_hfk : (pyGet d (freqKeyOf useSmoothed)).isSome = true) :
    load_esp32_log loads fromiso (pre ++ line :: post) hours inv useSmoothed stem =
      load_esp32_log loads fromiso (pre ++ post) hours inv useSmoothed stem := by
  unfold load_esp32_log
  rw [loadLines_skip loads fromiso (hours * 3600) inv (freqKeyOf useSmoothed) stem
    line post
    (fun st => loadStep_skips_missing_wall_time loads fromiso (hours * 3600) inv
      (freqKeyOf useSmoothed) stem st line d hd hwt) pre ⟨[], [], none⟩]

/-- A structured decode where line `"c"` has `freq` but no `wall_time`. -/
def loadsNoWT : List Char → Option JObj := fun s =>
  if s = "c".data then some [("freq", JVal.num 50)]
  else if s = "b".data then some [("wall_time", JVal.str "T1"), ("freq", JVal.num 50)]
  else none

/-- C10 (witness): the skip theorem applied to a concrete two-line log whose
first record lacks `wall_time`. -/
theorem load_esp32_log_skips_missing_wall_time_witness :
    loadsNoWT (pyStrip "c".data) = some [("freq", JVal.num 50)] ∧
    pyGet [("freq", JVal.num 50)] "wall_time" = none ∧
    (pyGet [("freq", JVal.num 50)] (freqKeyOf false)).isSome = true ∧
    load_esp32_log loadsNoWT fromisoOrd (["c".data] ++ ["b".data]) 0 true false "glog" =
      load_esp32_log loadsNoWT fromisoOrd ([] ++ ["b".data]) 0 true false "glog" :=
  ⟨by decide, by decide, by decide,
    load_esp32_log_skips_missing_wall_time loadsNoWT fromisoOrd 0 true false "glog"
      ["c".data] ["b".data] "c".data [("freq", JVal.num 50)]
      (by decide) (by decide) (by decide)⟩
/-! ### Claims C4 and C7: permissive decoding and the entry point's dispatch -/

/-- A pure-ASCII byte string decodes to itself. -/
theorem decodeUtf8IgnoreAux_ascii :
    ∀ (fuel : Nat) (bs : List Nat), bs.length ≤ fuel → (∀ b ∈ bs, b ≤ 0x7F) →
      decodeUtf8IgnoreAux fuel bs = bs.map Char.ofNat := by
  intro fuel
  induction fuel with
  | zero =>
    intro bs hlen _
    cases bs with
    | nil => rfl
    | cons b t => simp at hlen
  | succ f ih =>
    intro bs hlen ha
    cases bs with
    | nil => rfl
    | cons b t =>
      have hb7 : b ≤ 0x7F := ha b (List.mem_cons_self b t)
      have hlen2 : t.length ≤ f := by simp at hlen; omega
      simp only [decodeUtf8IgnoreAux, List.map_cons]
      rw [if_pos hb7]
      rw [ih t hlen2 (fun b' hb' => ha b' (List.mem_cons_of_mem b hb'))]

/-- An invalid byte between ASCII runs is dropped: nothing is substituted in
its place and decoding resumes at the next byte. -/
theorem decodeUtf8IgnoreAux_ff :
    ∀ (pre : List Nat) (fuel : Nat) (post : List Nat),
      (pre ++ 0xFF :: post).length ≤ fuel →
      (∀ b ∈ pre, b ≤ 0x7F) → (∀ b ∈ post, b ≤ 0x7F) →
      decodeUtf8IgnoreAux fuel (pre ++ 0xFF :: post) =
        pre.map Char.ofNat ++ post.map Char.ofNat := by
  intro pre
  induction pre with
  | nil =>
    intro fuel post hlen _ hpost
    cases fuel with
    | zero => simp at hlen
    | succ f =>
      have hlen2 : post.length ≤ f := by simp at hlen; omega
      simp only [List.nil_append, decodeUtf8IgnoreAux, List.map_nil]
      norm_num
      exact decodeUtf8IgnoreAux_ascii f post hlen2 hpost
  | cons b pre' ih =>
    intro fuel post hlen hpre hpost
    cases fuel with
    | zero => simp at hlen
    | succ f =>
      have hb7 : b ≤ 0x7F := hpre b (List.mem_cons_self b pre')
      have hlen2 : (pre' ++ 0xFF :: post).length ≤ f := by simp at hlen ⊢; omega
      simp only [List.cons_append, decodeUtf8IgnoreAux, List.map_cons, List.append_eq]
      rw [if_pos hb7]
      rw [ih f post hlen2 (fun b' hb' => hpre b' (List.mem_cons_of_mem b hb')) hpost]

/-- C7 (amended): `decode('utf-8', errors='ignore')` never fails the line and
handles an invalid byte sequence by DROPPING it — the surrounding bytes decode
exactly as if the invalid byte were absent, and no error marker is inserted in
its place. -/
theorem decodeUtf8Ignore_drops_invalid (pre post : List Nat)
    (hpre : ∀ b ∈ pre, b ≤ 0x7F) (hpost : ∀ b ∈ post, b ≤ 0x7F) :
    decodeUtf8Ignore (pre ++ 0xFF :: post) =
      pre.map Char.ofNat ++ post.map Char.ofNat := by
  unfold decodeUtf8Ignore
  exact decodeUtf8IgnoreAux_ff pre _ post (le_refl _) hpre hpost

/-- C7 (counterexample): the raw line `FF 7B 7D` (an invalid lead byte before
`"\x7b\x7d"`) decodes to exactly `"\x7b\x7d"`: no replacement marker U+FFFD — or
anything else — is substituted for the invalid byte, refuting the claim's
"substituting an error marker in place of each invalid byte sequence". -/
theorem decodeUtf8Ignore_no_marker_counterexample :
    decodeUtf8Ignore [0xFF, 0x7b, 0x7d] = ['\x7b', '\x7d'] ∧
    Char.ofNat 0xFFFD ∉ decodeUtf8Ignore [0xFF, 0x7b, 0x7d] :=
  ⟨by decide, by decide⟩

/-- C7 (witness): the dropping theorem applied to a concrete line `ab·cd` with
an invalid `0xFF` in the middle. -/
theorem decodeUtf8Ignore_drops_invalid_witness :
    (∀ b ∈ [97, 98], b ≤ 0x7F) ∧ (∀ b ∈ [99, 100], b ≤ 0x7F) ∧
    decodeUtf8Ignore ([97, 98] ++ 0xFF :: [99, 100]) =
      ([97, 98] : List Nat).map Char.ofNat ++ ([99, 100] : List Nat).map Char.ofNat :=
  ⟨by decide, by decide,
    decodeUtf8Ignore_drops_invalid [97, 98] [99, 100] (by decide) (by decide)⟩

/-- C4 (amended): when no serial endpoint is given (and `--list` is not set)
`main` prints the usage help and performs no capture: there is no
auto-detection, no enumeration-based endpoint choice, no preference for a
USB-bridge chip family and no fallback to the first enumerated endpoint. -/
theorem mainAction_no_ports (avail : List (String × String)) (a : Args)
    (hl : a.listFlag = false) (hp : a.ports = []) :
    mainAction avail a = MainAction.helpNoCapture := by
  simp [mainAction, hl, hp]

/-- C4 (counterexample): with no ports requested and an enumerable endpoint
available whose description matches a sensor-board USB-bridge chip family
(`CP2102`), the program still only prints help — it starts no capture and
lists nothing, refuting the claimed auto-detection mode. -/
theorem mainAction_counterexample :
    mainAction [("COM3", "CP2102 USB to UART Bridge Controller")]
      ⟨[], false, none, "."⟩ = MainAction.helpNoCapture ∧
    (∀ ws : List (String × String),
      MainAction.helpNoCapture ≠ MainAction.startCapture ws) ∧
    (∀ ds : List String, MainAction.helpNoCapture ≠ MainAction.listed ds) :=
  ⟨rfl, fun _ws h => MainAction.noConfusion h, fun _ds h => MainAction.noConfusion h⟩

/-- C4 (witness): the amended dispatch theorem applied to the concrete
no-ports invocation. -/
theorem mainAction_no_ports_witness :
    (Args.mk [] false none ".").listFlag = false ∧
    (Args.mk [] false none ".").ports = [] ∧
    mainAction [("COM3", "CP2102 USB to UART Bridge Controller")]
      ⟨[], false, none, "."⟩ = MainAction.helpNoCapture :=
  ⟨rfl, rfl,
    mainAction_no_ports [("COM3", "CP2102 USB to UART Bridge Controller")]
      ⟨[], false, none, "."⟩ rfl rfl⟩
end GridSeis
